import Mathlib

/-!
Verification of the end-of-life version-check automation.

This file shallowly embeds the decision pipeline of the repository
(`src/tool-classes.ts`, `src/repository-classes.ts`, `src/utils.ts`,
`src/message.ts`, `src/main.ts`) in Lean 4 and settles the frozen claims
about it.  Side-effecting gateway calls (HTTP fetches, issue creation,
Slack delivery) are turned into explicit inputs and outputs:

* the EOL feed and the manifest file become list arguments;
* a manifest fetch/decode failure becomes the `none` case of an
  `Option` argument (the TypeScript `catch` block returns `[]`);
* `createIssue` calls are recorded in an output list of intents;
* an out-of-bounds element access (reading `.latest` or `.version` off
  `undefined`, which throws a `TypeError` in JavaScript) becomes the
  `Except.error .indexOutOfRange` result.

Dates are modelled at calendar-day granularity (year / 0-based month /
1-based day, the dayjs field convention); machine timestamps are not
needed by any claim.
-/

namespace EolCheck

/-- Calendar date: dayjs convention, `month` is 0-based (January = 0) and
`day` is 1-based. -/
structure CalDate where
  year : Nat
  month : Nat
  day : Nat
deriving DecidableEq

/-- Gregorian leap-year test. -/
def isLeapYear (y : Nat) : Bool :=
  (y % 4 == 0 && y % 100 != 0) || y % 400 == 0

/-- Number of days in a (0-based) month. -/
def daysInMonth (y m : Nat) : Nat :=
  if m == 1 then (if isLeapYear y then 29 else 28)
  else if m == 3 || m == 5 || m == 8 || m == 10 then 30
  else 31

/-- A well-formed calendar date. -/
def ValidDate (d : CalDate) : Prop :=
  d.month < 12 ∧ 1 ≤ d.day ∧ d.day ≤ daysInMonth d.year d.month

instance (d : CalDate) : Decidable (ValidDate d) := by
  unfold ValidDate; infer_instance

/-- Order-embedding key for valid dates: `372 = 12 * 31`, months hold at
most 31 days and days start at 1, so lexicographic date order agrees with
`Nat` order on keys. -/
def dateKey (d : CalDate) : Nat :=
  372 * d.year + 31 * d.month + d.day

/-- dayjs `add(k, 'month')`: advance the month, clamping the day-of-month
to the length of the target month (Jan 31 + 1 month = Feb 28/29). -/
def addMonths (d : CalDate) (k : Nat) : CalDate :=
  let t := d.month + k
  let y := d.year + t / 12
  let m := t % 12
  ⟨y, m, min d.day (daysInMonth y m)⟩

/-- The next calendar day. -/
def nextDay (d : CalDate) : CalDate :=
  if d.day < daysInMonth d.year d.month then ⟨d.year, d.month, d.day + 1⟩
  else if d.month < 11 then ⟨d.year, d.month + 1, 1⟩
  else ⟨d.year + 1, 0, 1⟩

/-- Search bound for the whole-month count between two date keys: keys
grow by at least 28 per month, so every month count satisfying the
`findGreatest` predicate is below this bound. -/
def monthsSpanBound (a b : Nat) : Nat := (b - a) / 28 + 2

/-- dayjs `givenDate.diff(currentDate, 'month')`: the number of whole
calendar months from `now` to `d`, truncated toward zero (negative or
zero when `d` is not after `now`).  For `now ≤ d` this is the greatest
`k` with `addMonths now k ≤ d`, which is what moment/dayjs's anchor
computation followed by `absFloor` produces. -/
def monthsDiffTrunc (now d : CalDate) : Int :=
  if dateKey now ≤ dateKey d then
    ((Nat.findGreatest (fun k => dateKey (addMonths now k) ≤ dateKey d)
      (monthsSpanBound (dateKey now) (dateKey d))) : Int)
  else
    -((Nat.findGreatest (fun k => dateKey (addMonths d k) ≤ dateKey now)
      (monthsSpanBound (dateKey d) (dateKey now))) : Int)

/-- `src/utils.ts` `isDateMoreThanSixMonthsApart(date)`:
`givenDate.diff(currentDate, 'month') > 6` with dayjs month difference.
The ambient clock `new Date()` becomes the explicit `now` argument. -/
def isDateMoreThanSixMonthsApart (now given : CalDate) : Bool :=
  decide ((6 : Int) < monthsDiffTrunc now given)

/-- Modelled from the spec: `src/tool-classes.ts` imports
`isDateMoreThanSixMonthsAway` from `./utils`, but the revision of
`utils.ts` present in the repository defines only
`isDateMoreThanSixMonthsApart`; the spec's `isBeyondHorizon` gives the
same `monthsUntil(date, now) > 6` policy, so the missing name is the
in-repository function. -/
def isDateMoreThanSixMonthsAway (now given : CalDate) : Bool :=
  isDateMoreThanSixMonthsApart now given

/-- Modelled from the spec: `src/tool-classes.ts` imports `dateGte` from
`./utils`, which the in-repository revision of `utils.ts` does not
define (it has only the specialised `dateGteCurrentDate`).  Spec section
4.1 `isAtOrAfter(date, reference)`: true iff `date >= reference`, both
normalized to a timezone-agnostic calendar-day representation. -/
def dateGte (date reference : CalDate) : Bool :=
  Nat.ble (dateKey reference) (dateKey date)

/-- Semantic version (major.minor.patch; the feed and manifest versions
compared by this program carry no pre-release tags). -/
structure Semver where
  major : Nat
  minor : Nat
  patch : Nat
deriving DecidableEq

/-- `semver.gte a b`: semantic-version precedence `a ≥ b`. -/
def semverGte (a b : Semver) : Bool :=
  Nat.blt b.major a.major ||
    (Nat.beq b.major a.major &&
      (Nat.blt b.minor a.minor ||
        (Nat.beq b.minor a.minor && Nat.ble b.patch a.patch)))

/-- Render a version the way the template literals do (`20.5.0`). -/
def showVer (v : Semver) : String :=
  toString v.major ++ "." ++ toString v.minor ++ "." ++ toString v.patch

/-- Two-digit zero padding for date rendering. -/
def pad2 (n : Nat) : String :=
  if n < 10 then "0" ++ toString n else toString n

/-- Render a date as the feed's `YYYY-MM-DD` string (the raw `eol`
string that the template literals interpolate). -/
def showDate (d : CalDate) : String :=
  toString d.year ++ "-" ++ pad2 (d.month + 1) ++ "-" ++ pad2 d.day

/-- The `lts` field of a feed record: JSON boolean or string. -/
inductive LtsField where
  | ofBool (b : Bool)
  | ofString (s : String)
deriving DecidableEq

/-- One feed record (`IApiResponseFormat` in `src/tool-classes.ts`):
`eol` and `latestReleaseDate` are date strings, parsed here once. -/
structure VersionRecord where
  eol : CalDate
  latest : Semver
  latestReleaseDate : CalDate
  lts : LtsField
deriving DecidableEq

/-- One manifest entry (`{version}`). -/
structure ManifestEntry where
  version : Semver
deriving DecidableEq

/-- The filter predicate inside `Tool.filterApiData`: keep records whose
`eol` is at-or-after today, and for Node additionally require
`item.lts !== false`. -/
def keepRecord (name : String) (now : CalDate) (item : VersionRecord) : Bool :=
  if name == "Node" then
    dateGte item.eol now && !(item.lts == LtsField.ofBool false)
  else
    dateGte item.eol now

/-- `Tool.filterApiData` (`src/tool-classes.ts`): filter then reverse. -/
def filterApiData (name : String) (data : List VersionRecord) (now : CalDate) :
    List VersionRecord :=
  (data.filter (keepRecord name now)).reverse

/-- `ManifestRepository.getVersionsManifestFromRepo`
(`src/repository-classes.ts`): on success, reverse the manifest file's
entries and keep those semver-≥ the reference version; on any fetch or
decode error (`none`), the `catch` block reports failure and returns
`[]`. -/
def getVersionsManifestFromRepo (raw : Option (List ManifestEntry))
    (referenceVersion : Semver) : List ManifestEntry :=
  match raw with
  | none => []
  | some jsonData =>
    jsonData.reverse.filter (fun item => semverGte item.version referenceVersion)

/-- A composed notification (`issueContent` in the source). -/
structure NotificationIntent where
  title : String
  body : String
  labels : List String
deriving DecidableEq

/-- The `ManifestMismatch` intent of `Tool.checkVersions` (body text
normalized to single-line whitespace; the title is byte-exact). -/
def mismatchIntent (name : String) (apiVer manifestVer : Semver) :
    NotificationIntent where
  title := "[AUTOMATIC MESSAGE] " ++ name ++ " version `" ++ showVer apiVer ++
    "` is not in the manifest"
  body := "Hello :wave: The earliest version of " ++ name ++ " is `" ++
    showVer apiVer ++ "` and the one in the manifest is `" ++
    showVer manifestVer ++ "`. Please consider updating the manifest."
  labels := ["manifest-version-mismatch"]

/-- The `DeprecationNotice` intent of `Tool.checkVersions`. -/
def deprecationIntent (name : String) (ver : Semver) (eol : CalDate) :
    NotificationIntent where
  title := "[AUTOMATIC MESSAGE] " ++ name ++ " version `" ++ showVer ver ++
    "` is losing support on " ++ showDate eol
  body := "Hello :wave: The support for " ++ name ++ " version `" ++
    showVer ver ++ "` is ending on " ++ showDate eol ++
    ". Please consider upgrading to a newer version of " ++ name ++ "."
  labels := ["deprecation-notice"]

/-- The `ManifestMismatch` intent of `GoTool.checkVersions`. -/
def goMismatchIntent (apiVer manifestVer : Semver) : NotificationIntent where
  title := "[AUTOMATIC MESSAGE] Go version `" ++ showVer apiVer ++
    "` is not in the manifest"
  body := "Hello :wave: The latest version of Go is `" ++ showVer apiVer ++
    "` and the one in the manifest is `" ++ showVer manifestVer ++
    "`. Please consider updating the manifest."
  labels := ["manifest-version-mismatch"]

/-- The `DeprecationNotice` intent of `GoTool.checkVersions`: note that
its title carries no EOL date. -/
def goDeprecationIntent (ver : Semver) : NotificationIntent where
  title := "[AUTOMATIC MESSAGE] Go version `" ++ showVer ver ++
    "` is losing support soon!"
  body := "Hello :wave: The support for Go version `" ++ showVer ver ++
    "` is ending in less than 6 months. Please consider upgrading to a newer version of Go."
  labels := ["deprecation-notice"]

/-- Modelled from the spec: `InternalRepository.findIssueByTitle` is
called from `src/tool-classes.ts` but its definition is not among the
repository files; spec section 4.2 `findOpenIssueByTitle(owner, repo,
title)` looks an open issue up by its exact title, used strictly for
deduplication.  The tracker's open-issue list becomes the explicit
`existingIssues` argument. -/
def findIssueByTitle (existingIssues : List String) (title : String) : Bool :=
  existingIssues.contains title

/-- Terminal outcome of one tool evaluation. -/
inductive Outcome where
  | notifyCreated (intent : NotificationIntent)
  | notifySkippedDuplicate (intent : NotificationIntent)
  | noActionNeeded
deriving DecidableEq

/-- A JavaScript `TypeError` from reading a property off `undefined`
after an out-of-range element access. -/
inductive EvalError where
  | indexOutOfRange
deriving DecidableEq

/-- Result of one evaluation: error, or outcome plus the list of issues
passed to `createIssue`. -/
abbrev EvalResult := Except EvalError (Outcome × List NotificationIntent)

/-- The dedup-then-create tail shared verbatim by every notification
branch of `checkVersions`: skip when `findIssueByTitle` hits, otherwise
create the issue (and send the Slack message). -/
def notifyStep (existingIssues : List String) (intent : NotificationIntent) :
    Outcome × List NotificationIntent :=
  if findIssueByTitle existingIssues intent.title then
    (.notifySkippedDuplicate intent, [])
  else
    (.notifyCreated intent, [intent])

/-- `Tool.checkVersions` (`src/tool-classes.ts`, Node/Python): filter and
reverse the feed, take index 0, fetch and filter the manifest, take
index 0, compare versions, then either the mismatch branch or the EOL
horizon check followed by the deprecation branch. -/
def checkVersions (name : String) (feed : List VersionRecord)
    (rawManifest : Option (List ManifestEntry))
    (existingIssues : List String) (now : CalDate) : EvalResult :=
  match (filterApiData name feed now)[0]? with
  | none => .error .indexOutOfRange
  | some versionClosestToEol =>
    match (getVersionsManifestFromRepo rawManifest versionClosestToEol.latest)[0]? with
    | none => .error .indexOutOfRange
    | some first =>
      if ! semverGte versionClosestToEol.latest first.version then
        .ok (notifyStep existingIssues
          (mismatchIntent name versionClosestToEol.latest first.version))
      else if isDateMoreThanSixMonthsAway now versionClosestToEol.eol then
        .ok (.noActionNeeded, [])
      else
        .ok (notifyStep existingIssues
          (deprecationIntent name versionClosestToEol.latest versionClosestToEol.eol))

/-- `GoTool.checkVersions` (`src/tool-classes.ts`, current revision):
select the feed's index 1 directly, fetch and filter the manifest, take
index 0, compare versions; after a successful comparison there is no
horizon check — the deprecation notice is composed unconditionally
(`core.warning` that the version is losing support in less than 6
months), so no date argument is consumed at all. -/
def goCheckVersions (feed : List VersionRecord)
    (rawManifest : Option (List ManifestEntry))
    (existingIssues : List String) : EvalResult :=
  match feed[1]? with
  | none => .error .indexOutOfRange
  | some versionClosestToEol =>
    match (getVersionsManifestFromRepo rawManifest versionClosestToEol.latest)[0]? with
    | none => .error .indexOutOfRange
    | some latestFromManifest =>
      if ! semverGte versionClosestToEol.latest latestFromManifest.version then
        .ok (notifyStep existingIssues
          (goMismatchIntent versionClosestToEol.latest latestFromManifest.version))
      else
        .ok (notifyStep existingIssues
          (goDeprecationIntent versionClosestToEol.latest))

/-- `GoTool.checkVersions` from the earlier revision (`unnamed/part_004`,
second section): selection by `slice(0, 2)` + `reverse()` + index 0,
manifest narrowed by `slice(0, 2)` before index 0, and a horizon check
on `latestReleaseDate` plus 6 months; that revision has no dedup lookup
and creates the issue directly. -/
def goCheckVersionsPart004 (feed : List VersionRecord)
    (rawManifest : Option (List ManifestEntry)) (now : CalDate) : EvalResult :=
  match ((feed.take 2).reverse)[0]? with
  | none => .error .indexOutOfRange
  | some versionClosestToEol =>
    match ((getVersionsManifestFromRepo rawManifest versionClosestToEol.latest).take 2)[0]? with
    | none => .error .indexOutOfRange
    | some latestFromManifest =>
      if ! semverGte versionClosestToEol.latest latestFromManifest.version then
        .ok (.notifyCreated (goMismatchIntent versionClosestToEol.latest latestFromManifest.version),
          [goMismatchIntent versionClosestToEol.latest latestFromManifest.version])
      else if isDateMoreThanSixMonthsAway now
          (addMonths versionClosestToEol.latestReleaseDate 6) then
        .ok (.noActionNeeded, [])
      else
        .ok (.notifyCreated (goDeprecationIntent versionClosestToEol.latest),
          [goDeprecationIntent versionClosestToEol.latest])

/-- The Go selection rule of the current revision:
`goVersionsFromEolApi[1]`. -/
def goSelectDirect (l : List VersionRecord) : Option VersionRecord := l[1]?

/-- The Go selection rule of the earlier revision:
`slice(0, 2)` then `reverse()` then index 0. -/
def goSelectSliceReverse (l : List VersionRecord) : Option VersionRecord :=
  ((l.take 2).reverse)[0]?

/-- The version record `Tool.checkVersions` evaluates
(`filteredToolVersionsFromEolApi[0]`). -/
def selectedNodePython (name : String) (feed : List VersionRecord)
    (now : CalDate) : Option VersionRecord :=
  (filterApiData name feed now)[0]?

/-- Observable effects of `SlackMessage.sendMessage`
(`src/message.ts`): whether the webhook was posted, whether
`core.setFailed` was called, whether `core.error` was called. -/
structure SlackSendResult where
  sent : Bool
  runFailed : Bool
  errorLogged : Bool
deriving DecidableEq

/-- `SlackMessage.sendMessage`: with no webhook URL configured it calls
`core.setFailed("Missing Slack webhook URL")` and returns; otherwise it
posts when a message was built (`isSendable`), and a delivery exception
(`deliveryOk = false`) is caught and logged with `core.error`,
non-fatally. -/
def sendMessage (webhookUrl : Option String) (isSendable : Bool)
    (deliveryOk : Bool) : SlackSendResult :=
  match webhookUrl with
  | none => { sent := false, runFailed := true, errorLogged := false }
  | some _ =>
    if isSendable then
      if deliveryOk then { sent := true, runFailed := false, errorLogged := false }
      else { sent := false, runFailed := false, errorLogged := true }
    else { sent := false, runFailed := false, errorLogged := false }

/-- Character-list prefix test (used to state which substrings a
notification title embeds). -/
def charsStartWith : List Char → List Char → Bool
  | [], _ => true
  | _ :: _, [] => false
  | a :: as, b :: bs => a == b && charsStartWith as bs

/-- Character-list substring test. -/
def charsContain (pat : List Char) : List Char → Bool
  | [] => charsStartWith pat []
  | c :: rest => charsStartWith pat (c :: rest) || charsContain pat rest

/-- `strContains s pat`: `pat` occurs as a substring of `s`. -/
def strContains (s pat : String) : Bool :=
  charsContain pat.data s.data

end EolCheck

namespace EolCheck

/-! ### Calendar arithmetic lemmas -/

theorem daysInMonth_ge (y m : Nat) : 28 ≤ daysInMonth y m := by
  unfold daysInMonth
  split
  · split <;> omega
  · split <;> omega

theorem daysInMonth_le (y m : Nat) : daysInMonth y m ≤ 31 := by
  unfold daysInMonth
  split
  · split <;> omega
  · split <;> omega

/-- Closed form for the key of a shifted date: the `372 = 12 * 31`
choice absorbs the year carry. -/
theorem dateKey_addMonths (d : CalDate) (k : Nat) :
    dateKey (addMonths d k) =
      372 * d.year + 31 * d.month + 31 * k +
        min d.day (daysInMonth (d.year + (d.month + k) / 12) ((d.month + k) % 12)) := by
  unfold addMonths dateKey
  simp only
  omega

theorem addMonths_zero (d : CalDate) (hv : ValidDate d) : addMonths d 0 = d := by
  obtain ⟨y, m, dy⟩ := d
  obtain ⟨hm, hd1, hd2⟩ := hv
  simp only [addMonths, Nat.add_zero]
  rw [Nat.div_eq_of_lt hm, Nat.mod_eq_of_lt hm]
  simp only [Nat.add_zero]
  congr 1
  exact Nat.min_eq_left hd2

theorem dateKey_addMonths_lt (now : CalDate) (h1 : 1 ≤ now.day)
    (h31 : now.day ≤ 31) {j₁ j₂ : Nat} (hj : j₁ < j₂) :
    dateKey (addMonths now j₁) < dateKey (addMonths now j₂) := by
  rw [dateKey_addMonths, dateKey_addMonths]
  have ha := daysInMonth_ge (now.year + (now.month + j₁) / 12) ((now.month + j₁) % 12)
  have hb := daysInMonth_le (now.year + (now.month + j₁) / 12) ((now.month + j₁) % 12)
  have hc := daysInMonth_ge (now.year + (now.month + j₂) / 12) ((now.month + j₂) % 12)
  have hd := daysInMonth_le (now.year + (now.month + j₂) / 12) ((now.month + j₂) % 12)
  omega

theorem dateKey_addMonths_le (now : CalDate) (h1 : 1 ≤ now.day)
    (h31 : now.day ≤ 31) {j₁ j₂ : Nat} (hj : j₁ ≤ j₂) :
    dateKey (addMonths now j₁) ≤ dateKey (addMonths now j₂) := by
  rcases Nat.lt_or_ge j₁ j₂ with h | h
  · exact Nat.le_of_lt (dateKey_addMonths_lt now h1 h31 h)
  · have : j₁ = j₂ := Nat.le_antisymm hj h
    subst this
    exact Nat.le_refl _

theorem dateKey_le_addMonths (now : CalDate) (hv : ValidDate now) (k : Nat) :
    dateKey now ≤ dateKey (addMonths now k) := by
  obtain ⟨hm, hd1, hd2⟩ := hv
  have h31 : now.day ≤ 31 := Nat.le_trans hd2 (daysInMonth_le _ _)
  calc dateKey now = dateKey (addMonths now 0) := by
        rw [addMonths_zero now ⟨hm, hd1, hd2⟩]
    _ ≤ dateKey (addMonths now k) :=
        dateKey_addMonths_le now hd1 h31 (Nat.zero_le k)

/-- When `addMonths now k ≤ d < addMonths now (k + 1)` (on keys), the
dayjs month difference from `now` to `d` is exactly `k`. -/
theorem monthsDiffTrunc_eq (now d : CalDate) (hv : ValidDate now) (k : Nat)
    (hk : dateKey (addMonths now k) ≤ dateKey d)
    (hk1 : dateKey d < dateKey (addMonths now (k + 1))) :
    monthsDiffTrunc now d = (k : Int) := by
  obtain ⟨hm, hd1, hd2⟩ := hv
  have h31 : now.day ≤ 31 := Nat.le_trans hd2 (daysInMonth_le _ _)
  have hnd : dateKey now ≤ dateKey d :=
    Nat.le_trans (dateKey_le_addMonths now ⟨hm, hd1, hd2⟩ k) hk
  unfold monthsDiffTrunc
  rw [if_pos hnd]
  have hgoal : Nat.findGreatest (fun j => dateKey (addMonths now j) ≤ dateKey d)
      (monthsSpanBound (dateKey now) (dateKey d)) = k := by
    apply Nat.findGreatest_eq_iff.mpr
    refine ⟨?_, fun _ => hk, ?_⟩
    · -- the bound is large enough
      have hkk := dateKey_addMonths now k
      have hminlo : 1 ≤ min now.day
          (daysInMonth (now.year + (now.month + k) / 12) ((now.month + k) % 12)) := by
        have := daysInMonth_ge (now.year + (now.month + k) / 12) ((now.month + k) % 12)
        omega
      unfold monthsSpanBound
      unfold dateKey at *
      omega
    · intro n hn _ hP
      have hmono : dateKey (addMonths now (k + 1)) ≤ dateKey (addMonths now n) :=
        dateKey_addMonths_le now hd1 h31 hn
      omega
  rw [hgoal]

theorem monthsDiffTrunc_nonpos (now d : CalDate)
    (hd : dateKey d < dateKey now) : monthsDiffTrunc now d ≤ 0 := by
  unfold monthsDiffTrunc
  rw [if_neg (by omega)]
  omega

end EolCheck

namespace EolCheck

theorem dateKey_nextDay_lt (x : CalDate)
    (h : x.day < daysInMonth x.year x.month) :
    dateKey (nextDay x) = dateKey x + 1 := by
  unfold nextDay
  rw [if_pos h]
  unfold dateKey
  simp only
  omega

theorem dateKey_nextDay_clamp (x : CalDate) (hm : x.month < 12)
    (h : ¬ x.day < daysInMonth x.year x.month) :
    dateKey (nextDay x) = 372 * x.year + 31 * x.month + 32 := by
  unfold nextDay
  rw [if_neg h]
  split
  · unfold dateKey
    simp only
    omega
  · rename_i h2
    unfold dateKey
    simp only
    omega

/-- A day after a 6-month jump still lies strictly before the 7-month
jump (months are at least 28 days long). -/
theorem nextDay_addMonths_bounds (now : CalDate) (hd1 : 1 ≤ now.day)
    (h31 : now.day ≤ 31) :
    dateKey (addMonths now 6) ≤ dateKey (nextDay (addMonths now 6)) ∧
    dateKey (nextDay (addMonths now 6)) < dateKey (addMonths now 7) := by
  have hmlt : (addMonths now 6).month < 12 := Nat.mod_lt _ (by omega)
  have g6 := daysInMonth_ge (now.year + (now.month + 6) / 12) ((now.month + 6) % 12)
  have l6 := daysInMonth_le (now.year + (now.month + 6) / 12) ((now.month + 6) % 12)
  have g7 := daysInMonth_ge (now.year + (now.month + 7) / 12) ((now.month + 7) % 12)
  have l7 := daysInMonth_le (now.year + (now.month + 7) / 12) ((now.month + 7) % 12)
  by_cases hc : (addMonths now 6).day <
      daysInMonth (addMonths now 6).year (addMonths now 6).month
  · rw [dateKey_nextDay_lt _ hc]
    have hcc : min now.day
        (daysInMonth (now.year + (now.month + 6) / 12) ((now.month + 6) % 12)) <
        daysInMonth (now.year + (now.month + 6) / 12) ((now.month + 6) % 12) := hc
    rw [dateKey_addMonths, dateKey_addMonths]
    omega
  · rw [dateKey_nextDay_clamp _ hmlt hc]
    have hcc : ¬ min now.day
        (daysInMonth (now.year + (now.month + 6) / 12) ((now.month + 6) % 12)) <
        daysInMonth (now.year + (now.month + 6) / 12) ((now.month + 6) % 12) := hc
    have e1 : (addMonths now 6).year = now.year + (now.month + 6) / 12 := rfl
    have e2 : (addMonths now 6).month = (now.month + 6) % 12 := rfl
    rw [e1, e2, dateKey_addMonths, dateKey_addMonths]
    omega

end EolCheck

namespace EolCheck

/-! ### List and string helper lemmas -/

theorem mem_of_getLast_eq_some {α : Type} {l : List α} {v : α}
    (h : l.getLast? = some v) : v ∈ l := by
  induction l with
  | nil => simp at h
  | cons a t ih =>
    cases t with
    | nil =>
      simp [List.getLast?_singleton] at h
      simp [h]
    | cons b t2 =>
      rw [List.getLast?_cons_cons] at h
      exact List.mem_cons_of_mem a (ih h)

/-- In a `Pairwise R` list, every element is the last one or relates to
it. -/
theorem rel_getLast_of_pairwise {α : Type} {R : α → α → Prop} :
    ∀ {l : List α} {v : α}, l.Pairwise R → l.getLast? = some v →
      ∀ w ∈ l, w = v ∨ R w v := by
  intro l
  induction l with
  | nil => intro v _ h; simp at h
  | cons a t ih =>
    intro v hp hl w hw
    rcases List.pairwise_cons.mp hp with ⟨ha, hpt⟩
    cases t with
    | nil =>
      simp [List.getLast?_singleton] at hl
      subst hl
      simp at hw
      exact Or.inl hw
    | cons b t2 =>
      rw [List.getLast?_cons_cons] at hl
      rcases List.mem_cons.mp hw with rfl | hwt
      · exact Or.inr (ha v (mem_of_getLast_eq_some hl))
      · exact ih hpt hl w hwt

theorem charsStartWith_self_append (p r : List Char) :
    charsStartWith p (p ++ r) = true := by
  induction p with
  | nil => rfl
  | cons c cs ih => simp [charsStartWith, ih]

theorem charsContain_self_append (p r : List Char) :
    charsContain p (p ++ r) = true := by
  cases hpr : p ++ r with
  | nil =>
    have hp : p = [] := by
      cases p <;> simp_all
    subst hp
    rfl
  | cons c rest =>
    rw [charsContain, ← hpr, charsStartWith_self_append]
    simp

theorem charsContain_append_left (l p s : List Char)
    (h : charsContain p s = true) : charsContain p (l ++ s) = true := by
  induction l with
  | nil => simpa using h
  | cons c cs ih =>
    rw [List.cons_append, charsContain, ih]
    simp

theorem strContains_append_mid (x y z : String) :
    strContains (x ++ (y ++ z)) y = true := by
  unfold strContains
  have hx : (x ++ (y ++ z)).data = x.data ++ (y.data ++ z.data) := rfl
  rw [hx]
  exact charsContain_append_left _ _ _ (charsContain_self_append _ _)

theorem strContains_append_end (x y : String) :
    strContains (x ++ y) y = true := by
  unfold strContains
  have hx : (x ++ y).data = x.data ++ (y.data ++ []) := by
    simp
  rw [hx]
  exact charsContain_append_left _ _ _ (charsContain_self_append _ _)

/-! ### Notification-step lemmas -/

theorem notifyStep_created_inv (issues : List String)
    (i intent : NotificationIntent) (created : List NotificationIntent)
    (h : notifyStep issues i = (.notifyCreated intent, created)) :
    intent = i ∧ findIssueByTitle issues i.title = false ∧
      created = [i] := by
  unfold notifyStep at h
  split at h
  · simp at h
  · rename_i hf
    simp only [Prod.mk.injEq, Outcome.notifyCreated.injEq] at h
    exact ⟨h.1.symm, by simpa using hf, h.2.symm⟩

theorem notifyStep_skipped_inv (issues : List String)
    (i intent : NotificationIntent) (created : List NotificationIntent)
    (h : notifyStep issues i = (.notifySkippedDuplicate intent, created)) :
    intent = i ∧ created = [] := by
  unfold notifyStep at h
  split at h
  · simp only [Prod.mk.injEq, Outcome.notifySkippedDuplicate.injEq] at h
    exact ⟨h.1.symm, h.2.symm⟩
  · simp at h

theorem notifyStep_dup (issues : List String) (i : NotificationIntent) :
    notifyStep (i.title :: issues) i = (.notifySkippedDuplicate i, []) := by
  unfold notifyStep findIssueByTitle
  simp [List.contains_cons]

theorem notifyStep_not_noAction (issues : List String)
    (i : NotificationIntent) :
    (notifyStep issues i).1 ≠ Outcome.noActionNeeded := by
  unfold notifyStep
  split <;> simp

theorem notifyStep_cases (issues : List String) (i : NotificationIntent) :
    notifyStep issues i = (.notifySkippedDuplicate i, []) ∨
      notifyStep issues i = (.notifyCreated i, [i]) := by
  unfold notifyStep
  split
  · exact Or.inl rfl
  · exact Or.inr rfl

end EolCheck

namespace EolCheck

/-! ### Claim C1 -/

/-- Claim C1: the spec's scenario B says that when the feed's selected
version has `latest = 3.12.0` and the manifest holds the single entry
`3.11.0`, `checkVersions` ends in `NotifyCreated` with a
`ManifestMismatch` intent.  The code instead crashes: the manifest list
is filtered to entries semver-≥ the selected version, which is empty
here, so reading `manifestData[0].version` throws a `TypeError` and no
issue is ever created.  This theorem evaluates the evaluation at the
failing input. -/
theorem checkVersions_scenarioB_throws :
    checkVersions "Python"
      [⟨⟨2028, 0, 1⟩, ⟨3, 12, 0⟩, ⟨2027, 9, 2⟩, .ofBool false⟩]
      (some [⟨⟨3, 11, 0⟩⟩]) [] ⟨2026, 9, 11⟩ = .error .indexOutOfRange := rfl

/-! ### Claim C7 -/

/-- Claim C7 counterexample: with no webhook URL configured,
`sendMessage` does skip delivery, but it calls `core.setFailed`
("Missing Slack webhook URL"), marking the run as failed — contradicting
the claim that the skip is silent and not a failure. -/
theorem sendMessage_missing_url_fails_cex :
    (sendMessage none true true).sent = false ∧
      (sendMessage none true true).runFailed = true :=
  ⟨rfl, rfl⟩

/-- Claim C7 (amended): for every message state, when no webhook URL is
configured `sendMessage` skips delivery (nothing is sent, nothing is
logged as an exception) but marks the run as failed via
`core.setFailed`. -/
theorem sendMessage_missing_url_amended :
    ∀ (isSendable deliveryOk : Bool),
      sendMessage none isSendable deliveryOk =
        { sent := false, runFailed := true, errorLogged := false } :=
  fun _ _ => rfl

/-! ### Claim C5 -/

/-- Claim C5: for every Go feed with at least two records, both
selection implementations — the current `goVersionsFromEolApi[1]` and
the earlier `slice(0, 2)` + `reverse()` + index 0 — return the record at
index 1 (zero-based). -/
theorem goSelection_equivalence (l : List VersionRecord)
    (h : 1 < l.length) :
    goSelectSliceReverse l = some (l.get ⟨1, h⟩) ∧
      goSelectDirect l = some (l.get ⟨1, h⟩) := by
  match l, h with
  | a :: b :: t, _ =>
    refine ⟨?_, ?_⟩ <;> simp [goSelectSliceReverse, goSelectDirect]

/-- Claim C5 witness: both selection rules pick the second record of a
concrete two-record feed. -/
theorem goSelection_equivalence_witness :
    goSelectSliceReverse
        [⟨⟨2027, 1, 1⟩, ⟨1, 22, 0⟩, ⟨2026, 7, 6⟩, .ofBool false⟩,
         ⟨⟨2026, 7, 1⟩, ⟨1, 21, 0⟩, ⟨2026, 1, 6⟩, .ofBool false⟩] =
      some ⟨⟨2026, 7, 1⟩, ⟨1, 21, 0⟩, ⟨2026, 1, 6⟩, .ofBool false⟩ ∧
    goSelectDirect
        [⟨⟨2027, 1, 1⟩, ⟨1, 22, 0⟩, ⟨2026, 7, 6⟩, .ofBool false⟩,
         ⟨⟨2026, 7, 1⟩, ⟨1, 21, 0⟩, ⟨2026, 1, 6⟩, .ofBool false⟩] =
      some ⟨⟨2026, 7, 1⟩, ⟨1, 21, 0⟩, ⟨2026, 1, 6⟩, .ofBool false⟩ :=
  goSelection_equivalence
    [⟨⟨2027, 1, 1⟩, ⟨1, 22, 0⟩, ⟨2026, 7, 6⟩, .ofBool false⟩,
     ⟨⟨2026, 7, 1⟩, ⟨1, 21, 0⟩, ⟨2026, 1, 6⟩, .ofBool false⟩] (by decide)

end EolCheck

namespace EolCheck

/-! ### Claim C2 -/

/-- Claim C2 counterexample: a two-record Go feed whose selected record
was released on 2027-01-01, so its release date plus 6 months
(2027-07-01) is more than 6 months beyond a clock of 2026-01-01; the
claim says the evaluation must end in `NoActionNeeded` with no issue
created, but the current `GoTool.checkVersions` creates the
`DeprecationNotice` issue anyway (it performs no horizon computation at
all). -/
theorem goCheckVersions_ignores_release_horizon_cex :
    goCheckVersions
        [⟨⟨2028, 1, 1⟩, ⟨1, 21, 0⟩, ⟨2027, 7, 1⟩, .ofBool false⟩,
         ⟨⟨2027, 7, 1⟩, ⟨1, 20, 0⟩, ⟨2027, 0, 1⟩, .ofBool false⟩]
        (some [⟨⟨1, 20, 0⟩⟩]) [] =
      .ok (.notifyCreated (goDeprecationIntent ⟨1, 20, 0⟩),
        [goDeprecationIntent ⟨1, 20, 0⟩]) ∧
    isDateMoreThanSixMonthsApart ⟨2026, 0, 1⟩ (addMonths ⟨2027, 0, 1⟩ 6) = true :=
  ⟨rfl, by decide⟩

/-- Claim C2 (amended): in the current revision the Go evaluation has no
deadline policy at all — whenever the selected record satisfies the
manifest comparison, a `DeprecationNotice` intent is composed and an
issue is created unless a duplicate exists, regardless of
`latestReleaseDate`, and the outcome is never `NoActionNeeded`.  The
release-date-plus-six-months horizon described by the claim exists only
in the earlier revision (`unnamed/part_004`), where it does produce
`NoActionNeeded` when the proxy date is more than 6 months out. -/
theorem goCheckVersions_policy_amended :
    (∀ (feed : List VersionRecord) (raw : Option (List ManifestEntry))
        (issues : List String) (V : VersionRecord) (m : ManifestEntry),
      feed[1]? = some V →
      (getVersionsManifestFromRepo raw V.latest)[0]? = some m →
      semverGte V.latest m.version = true →
      goCheckVersions feed raw issues =
        .ok (notifyStep issues (goDeprecationIntent V.latest))) ∧
    (∀ (issues : List String) (i : NotificationIntent),
      (notifyStep issues i).1 ≠ Outcome.noActionNeeded) ∧
    (∀ (feed : List VersionRecord) (raw : Option (List ManifestEntry))
        (now : CalDate) (V : VersionRecord) (m : ManifestEntry),
      ((feed.take 2).reverse)[0]? = some V →
      ((getVersionsManifestFromRepo raw V.latest).take 2)[0]? = some m →
      semverGte V.latest m.version = true →
      isDateMoreThanSixMonthsApart now (addMonths V.latestReleaseDate 6) = true →
      goCheckVersionsPart004 feed raw now = .ok (.noActionNeeded, [])) := by
  refine ⟨?_, notifyStep_not_noAction, ?_⟩
  · intro feed raw issues V m h1 h2 h3
    unfold goCheckVersions
    rw [h1]
    simp [h2, h3]
  · intro feed raw now V m h1 h2 h3 h4
    have h4' : isDateMoreThanSixMonthsAway now
        (addMonths V.latestReleaseDate 6) = true := h4
    unfold goCheckVersionsPart004
    rw [h1]
    simp [h2, h3, h4']

/-- Claim C2 witness: the amended theorem applied at the
counterexample's input (current revision, empty issue list: the
deprecation issue is created). -/
theorem goCheckVersions_policy_amended_witness :
    goCheckVersions
        [⟨⟨2028, 1, 1⟩, ⟨1, 21, 0⟩, ⟨2027, 7, 1⟩, .ofBool false⟩,
         ⟨⟨2027, 7, 1⟩, ⟨1, 20, 0⟩, ⟨2027, 0, 1⟩, .ofBool false⟩]
        (some [⟨⟨1, 20, 0⟩⟩]) ["other title"] =
      .ok (notifyStep ["other title"] (goDeprecationIntent ⟨1, 20, 0⟩)) :=
  goCheckVersions_policy_amended.1
    [⟨⟨2028, 1, 1⟩, ⟨1, 21, 0⟩, ⟨2027, 7, 1⟩, .ofBool false⟩,
     ⟨⟨2027, 7, 1⟩, ⟨1, 20, 0⟩, ⟨2027, 0, 1⟩, .ofBool false⟩]
    (some [⟨⟨1, 20, 0⟩⟩]) ["other title"]
    ⟨⟨2027, 7, 1⟩, ⟨1, 20, 0⟩, ⟨2027, 0, 1⟩, .ofBool false⟩ ⟨⟨1, 20, 0⟩⟩
    rfl rfl rfl

end EolCheck

namespace EolCheck

/-! ### Claim C9 -/

/-- Claim C9: `checkVersions` can throw an out-of-range access at its
public interface — on a feed whose filtered list is empty, on a Go feed
with fewer than two records, on a manifest whose filtered result is
empty (no entry semver-≥ the selected version), and on a manifest
fetch/decode error (which yields the empty list); conversely, when the
filtered feed is non-empty (length at least 2 for Go) and the filtered
manifest list for the selected version is non-empty, the evaluation
reaches a terminal outcome. -/
theorem checkVersions_bounds :
    (checkVersions "Node"
        [⟨⟨2020, 0, 1⟩, ⟨14, 21, 3⟩, ⟨2019, 11, 1⟩, .ofString "2020-10-27"⟩]
        (some [⟨⟨14, 21, 3⟩⟩]) [] ⟨2026, 9, 11⟩ = .error .indexOutOfRange) ∧
    (goCheckVersions
        [⟨⟨2027, 1, 1⟩, ⟨1, 21, 0⟩, ⟨2025, 7, 1⟩, .ofBool false⟩]
        (some [⟨⟨1, 21, 0⟩⟩]) [] = .error .indexOutOfRange) ∧
    (checkVersions "Node"
        [⟨⟨2027, 0, 1⟩, ⟨22, 0, 0⟩, ⟨2026, 0, 1⟩, .ofString "2026-10-01"⟩]
        (some [⟨⟨21, 0, 0⟩⟩]) [] ⟨2026, 9, 11⟩ = .error .indexOutOfRange) ∧
    (checkVersions "Python"
        [⟨⟨2027, 0, 1⟩, ⟨3, 13, 2⟩, ⟨2026, 0, 1⟩, .ofBool false⟩]
        none [] ⟨2026, 9, 11⟩ = .error .indexOutOfRange) ∧
    (∀ (name : String) (feed : List VersionRecord)
        (raw : Option (List ManifestEntry)) (issues : List String)
        (now : CalDate),
      filterApiData name feed now ≠ [] →
      (∀ V ∈ (filterApiData name feed now).take 1,
        getVersionsManifestFromRepo raw V.latest ≠ []) →
      ∃ r, checkVersions name feed raw issues now = .ok r) ∧
    (∀ (feed : List VersionRecord) (raw : Option (List ManifestEntry))
        (issues : List String),
      2 ≤ feed.length →
      (∀ V ∈ (feed.drop 1).take 1,
        getVersionsManifestFromRepo raw V.latest ≠ []) →
      ∃ r, goCheckVersions feed raw issues = .ok r) := by
  refine ⟨rfl, rfl, rfl, rfl, ?_, ?_⟩
  · intro name feed raw issues now hne hman
    unfold checkVersions
    cases hF : filterApiData name feed now with
    | nil => exact absurd hF hne
    | cons V t =>
      have hV : V ∈ (filterApiData name feed now).take 1 := by
        rw [hF]; simp
      cases hM : getVersionsManifestFromRepo raw V.latest with
      | nil => exact absurd hM (hman V hV)
      | cons m t2 =>
        simp only [List.getElem?_cons_zero, hM]
        split
        · exact ⟨_, rfl⟩
        · split
          · exact ⟨_, rfl⟩
          · exact ⟨_, rfl⟩
  · intro feed raw issues hlen hman
    unfold goCheckVersions
    match feed, hlen with
    | a :: b :: t, _ =>
      have hb : b ∈ ((a :: b :: t).drop 1).take 1 := by simp
      cases hM : getVersionsManifestFromRepo raw b.latest with
      | nil => exact absurd hM (hman b hb)
      | cons m t2 =>
        simp only [List.getElem?_cons_succ, List.getElem?_cons_zero, hM]
        split
        · exact ⟨_, rfl⟩
        · exact ⟨_, rfl⟩

/-- Claim C9 witness: the in-bounds halves of the theorem applied at
concrete well-formed inputs. -/
theorem checkVersions_bounds_witness :
    (∃ r, checkVersions "Python"
        [⟨⟨2027, 5, 30⟩, ⟨3, 12, 6⟩, ⟨2026, 0, 1⟩, .ofBool false⟩]
        (some [⟨⟨3, 12, 6⟩⟩]) [] ⟨2026, 9, 11⟩ = .ok r) ∧
    (∃ r, goCheckVersions
        [⟨⟨2027, 7, 1⟩, ⟨1, 22, 0⟩, ⟨2026, 7, 1⟩, .ofBool false⟩,
         ⟨⟨2026, 11, 1⟩, ⟨1, 21, 0⟩, ⟨2026, 1, 1⟩, .ofBool false⟩]
        (some [⟨⟨1, 21, 0⟩⟩]) [] = .ok r) :=
  ⟨checkVersions_bounds.2.2.2.2.1 "Python"
      [⟨⟨2027, 5, 30⟩, ⟨3, 12, 6⟩, ⟨2026, 0, 1⟩, .ofBool false⟩]
      (some [⟨⟨3, 12, 6⟩⟩]) [] ⟨2026, 9, 11⟩ (by decide) (by decide),
   checkVersions_bounds.2.2.2.2.2
      [⟨⟨2027, 7, 1⟩, ⟨1, 22, 0⟩, ⟨2026, 7, 1⟩, .ofBool false⟩,
       ⟨⟨2026, 11, 1⟩, ⟨1, 21, 0⟩, ⟨2026, 1, 1⟩, .ofBool false⟩]
      (some [⟨⟨1, 21, 0⟩⟩]) [] (by decide) (by decide)⟩

end EolCheck

namespace EolCheck

/-! ### Inversion and evaluation lemmas for the two evaluators -/

theorem checkVersions_ok_inv (name : String) (feed : List VersionRecord)
    (raw : Option (List ManifestEntry)) (issues : List String)
    (now : CalDate) (o : Outcome) (created : List NotificationIntent)
    (h : checkVersions name feed raw issues now = .ok (o, created)) :
    ∃ V m, (filterApiData name feed now)[0]? = some V ∧
      (getVersionsManifestFromRepo raw V.latest)[0]? = some m ∧
      ((semverGte V.latest m.version = false ∧
          (o, created) = notifyStep issues (mismatchIntent name V.latest m.version)) ∨
       (semverGte V.latest m.version = true ∧
          isDateMoreThanSixMonthsAway now V.eol = true ∧
          o = .noActionNeeded ∧ created = []) ∨
       (semverGte V.latest m.version = true ∧
          isDateMoreThanSixMonthsAway now V.eol = false ∧
          (o, created) = notifyStep issues (deprecationIntent name V.latest V.eol))) := by
  unfold checkVersions at h
  split at h
  · exact absurd h (by simp)
  · rename_i V hF
    split at h
    · exact absurd h (by simp)
    · rename_i m hM
      refine ⟨V, m, hF, hM, ?_⟩
      split at h
      · rename_i hsv
        left
        simp only [Except.ok.injEq] at h
        exact ⟨by simpa using hsv, h.symm⟩
      · rename_i hsv
        split at h
        · rename_i hz
          right; left
          simp only [Except.ok.injEq, Prod.mk.injEq] at h
          exact ⟨by simpa using hsv, hz, h.1.symm, h.2.symm⟩
        · rename_i hz
          right; right
          simp only [Except.ok.injEq] at h
          exact ⟨by simpa using hsv, by simpa using hz, h.symm⟩

theorem goCheckVersions_ok_inv (feed : List VersionRecord)
    (raw : Option (List ManifestEntry)) (issues : List String)
    (o : Outcome) (created : List NotificationIntent)
    (h : goCheckVersions feed raw issues = .ok (o, created)) :
    ∃ V m, feed[1]? = some V ∧
      (getVersionsManifestFromRepo raw V.latest)[0]? = some m ∧
      ((semverGte V.latest m.version = false ∧
          (o, created) = notifyStep issues (goMismatchIntent V.latest m.version)) ∨
       (semverGte V.latest m.version = true ∧
          (o, created) = notifyStep issues (goDeprecationIntent V.latest))) := by
  unfold goCheckVersions at h
  split at h
  · exact absurd h (by simp)
  · rename_i V hF
    split at h
    · exact absurd h (by simp)
    · rename_i m hM
      refine ⟨V, m, hF, hM, ?_⟩
      split at h
      · rename_i hsv
        left
        simp only [Except.ok.injEq] at h
        exact ⟨by simpa using hsv, h.symm⟩
      · rename_i hsv
        right
        simp only [Except.ok.injEq] at h
        exact ⟨by simpa using hsv, h.symm⟩

theorem checkVersions_eval (name : String) (feed : List VersionRecord)
    (raw : Option (List ManifestEntry)) (issues : List String)
    (now : CalDate) (V : VersionRecord) (m : ManifestEntry)
    (hF : (filterApiData name feed now)[0]? = some V)
    (hM : (getVersionsManifestFromRepo raw V.latest)[0]? = some m) :
    checkVersions name feed raw issues now =
      if semverGte V.latest m.version = false then
        .ok (notifyStep issues (mismatchIntent name V.latest m.version))
      else if isDateMoreThanSixMonthsAway now V.eol then
        .ok (.noActionNeeded, [])
      else
        .ok (notifyStep issues (deprecationIntent name V.latest V.eol)) := by
  unfold checkVersions
  rw [hF]
  cases hsv : semverGte V.latest m.version <;> simp [hM, hsv]

theorem goCheckVersions_eval (feed : List VersionRecord)
    (raw : Option (List ManifestEntry)) (issues : List String)
    (V : VersionRecord) (m : ManifestEntry)
    (hF : feed[1]? = some V)
    (hM : (getVersionsManifestFromRepo raw V.latest)[0]? = some m) :
    goCheckVersions feed raw issues =
      if semverGte V.latest m.version = false then
        .ok (notifyStep issues (goMismatchIntent V.latest m.version))
      else
        .ok (notifyStep issues (goDeprecationIntent V.latest)) := by
  unfold goCheckVersions
  rw [hF]
  cases hsv : semverGte V.latest m.version <;> simp [hM, hsv]

end EolCheck

namespace EolCheck

/-! ### Claim C6 -/

/-- Claim C6: whenever the dedup lookup finds an existing issue with the
composed intent's title (mismatch or deprecation situation alike), the
evaluation ends in `NotifySkippedDuplicate` and `createIssue` is never
invoked (the created list is empty); consequently, re-running an
evaluation that created an issue, with that issue's title now among the
open issues, skips instead of creating a second issue.  Stated for the
Node/Python evaluator and for the Go evaluator. -/
theorem dedup_idempotent :
    (∀ (name : String) (feed : List VersionRecord)
        (raw : Option (List ManifestEntry)) (issues : List String)
        (now : CalDate) (intent : NotificationIntent)
        (created : List NotificationIntent),
      checkVersions name feed raw issues now =
          .ok (.notifyCreated intent, created) →
      checkVersions name feed raw (intent.title :: issues) now =
          .ok (.notifySkippedDuplicate intent, [])) ∧
    (∀ (name : String) (feed : List VersionRecord)
        (raw : Option (List ManifestEntry)) (issues : List String)
        (now : CalDate) (intent : NotificationIntent)
        (created : List NotificationIntent),
      checkVersions name feed raw issues now =
          .ok (.notifySkippedDuplicate intent, created) →
      created = []) ∧
    (∀ (feed : List VersionRecord) (raw : Option (List ManifestEntry))
        (issues : List String) (intent : NotificationIntent)
        (created : List NotificationIntent),
      goCheckVersions feed raw issues = .ok (.notifyCreated intent, created) →
      goCheckVersions feed raw (intent.title :: issues) =
          .ok (.notifySkippedDuplicate intent, [])) ∧
    (∀ (feed : List VersionRecord) (raw : Option (List ManifestEntry))
        (issues : List String) (intent : NotificationIntent)
        (created : List NotificationIntent),
      goCheckVersions feed raw issues =
          .ok (.notifySkippedDuplicate intent, created) →
      created = []) := by
  refine ⟨?_, ?_, ?_, ?_⟩
  · intro name feed raw issues now intent created h
    obtain ⟨V, m, hF, hM, hcase⟩ :=
      checkVersions_ok_inv name feed raw issues now _ _ h
    rw [checkVersions_eval name feed raw (intent.title :: issues) now V m hF hM]
    rcases hcase with ⟨hsv, hstep⟩ | ⟨_, _, hno, _⟩ | ⟨hsv, hz, hstep⟩
    · obtain ⟨hi, _, _⟩ := notifyStep_created_inv issues _ _ _ hstep.symm
      subst hi
      rw [if_pos hsv, notifyStep_dup]
    · exact absurd hno.symm (by simp)
    · obtain ⟨hi, _, _⟩ := notifyStep_created_inv issues _ _ _ hstep.symm
      subst hi
      rw [if_neg (by simp [hsv]), if_neg (by simp [hz]), notifyStep_dup]
  · intro name feed raw issues now intent created h
    obtain ⟨V, m, _, _, hcase⟩ :=
      checkVersions_ok_inv name feed raw issues now _ _ h
    rcases hcase with ⟨_, hstep⟩ | ⟨_, _, hno, _⟩ | ⟨_, _, hstep⟩
    · exact (notifyStep_skipped_inv issues _ _ _ hstep.symm).2
    · exact absurd hno.symm (by simp)
    · exact (notifyStep_skipped_inv issues _ _ _ hstep.symm).2
  · intro feed raw issues intent created h
    obtain ⟨V, m, hF, hM, hcase⟩ := goCheckVersions_ok_inv feed raw issues _ _ h
    rw [goCheckVersions_eval feed raw (intent.title :: issues) V m hF hM]
    rcases hcase with ⟨hsv, hstep⟩ | ⟨hsv, hstep⟩
    · obtain ⟨hi, _, _⟩ := notifyStep_created_inv issues _ _ _ hstep.symm
      subst hi
      rw [if_pos hsv, notifyStep_dup]
    · obtain ⟨hi, _, _⟩ := notifyStep_created_inv issues _ _ _ hstep.symm
      subst hi
      rw [if_neg (by simp [hsv]), notifyStep_dup]
  · intro feed raw issues intent created h
    obtain ⟨V, m, _, _, hcase⟩ := goCheckVersions_ok_inv feed raw issues _ _ h
    rcases hcase with ⟨_, hstep⟩ | ⟨_, hstep⟩
    · exact (notifyStep_skipped_inv issues _ _ _ hstep.symm).2
    · exact (notifyStep_skipped_inv issues _ _ _ hstep.symm).2

/-- Claim C6 witness: a concrete Node run that creates a deprecation
issue; re-running it with that issue's title among the open issues ends
in `NotifySkippedDuplicate` with nothing created. -/
theorem dedup_idempotent_witness :
    checkVersions "Node"
        [⟨⟨2026, 11, 30⟩, ⟨20, 5, 0⟩, ⟨2025, 0, 1⟩, .ofString "2026-10-28"⟩]
        (some [⟨⟨20, 5, 0⟩⟩])
        ((deprecationIntent "Node" ⟨20, 5, 0⟩ ⟨2026, 11, 30⟩).title :: [])
        ⟨2026, 9, 11⟩ =
      .ok (.notifySkippedDuplicate
        (deprecationIntent "Node" ⟨20, 5, 0⟩ ⟨2026, 11, 30⟩), []) :=
  dedup_idempotent.1 "Node"
    [⟨⟨2026, 11, 30⟩, ⟨20, 5, 0⟩, ⟨2025, 0, 1⟩, .ofString "2026-10-28"⟩]
    (some [⟨⟨20, 5, 0⟩⟩]) [] ⟨2026, 9, 11⟩
    (deprecationIntent "Node" ⟨20, 5, 0⟩ ⟨2026, 11, 30⟩)
    [deprecationIntent "Node" ⟨20, 5, 0⟩ ⟨2026, 11, 30⟩] rfl

end EolCheck

namespace EolCheck

/-! ### Claim C4 -/

/-- Claim C4 counterexample: a Python feed whose first record expires on
2026-05-01 and whose second expires on 2027-05-01, both kept by the
filter; filter-reverse-index-0 selects the second (later-expiring)
record, not the soonest-expiring kept record — the claim's "soonest
expiring" reading fails on feeds that are not ordered with later EOL
dates first. -/
theorem selection_not_soonest_expiring_cex :
    selectedNodePython "Python"
        [⟨⟨2026, 4, 1⟩, ⟨3, 11, 9⟩, ⟨2025, 0, 1⟩, .ofBool false⟩,
         ⟨⟨2027, 4, 1⟩, ⟨3, 12, 6⟩, ⟨2025, 5, 1⟩, .ofBool false⟩]
        ⟨2026, 0, 10⟩ =
      some ⟨⟨2027, 4, 1⟩, ⟨3, 12, 6⟩, ⟨2025, 5, 1⟩, .ofBool false⟩ ∧
    (⟨⟨2026, 4, 1⟩, ⟨3, 11, 9⟩, ⟨2025, 0, 1⟩, .ofBool false⟩ : VersionRecord) ∈
      [⟨⟨2026, 4, 1⟩, ⟨3, 11, 9⟩, ⟨2025, 0, 1⟩, .ofBool false⟩,
       ⟨⟨2027, 4, 1⟩, ⟨3, 12, 6⟩, ⟨2025, 5, 1⟩, .ofBool false⟩].filter
        (keepRecord "Python" ⟨2026, 0, 10⟩) ∧
    dateKey (⟨2026, 4, 1⟩ : CalDate) < dateKey (⟨2027, 4, 1⟩ : CalDate) :=
  ⟨rfl, by decide, by decide⟩

/-- Claim C4 (amended): the Node/Python evaluation keeps exactly the
records whose `eol` is at-or-after today — for Node additionally
requiring `lts` not literally `false` — reverses the kept records and
takes index 0, i.e. it selects the last kept record in the feed's source
order; that record is the soonest-expiring kept one when the feed's
records carry non-increasing EOL dates. -/
theorem selection_last_kept_amended :
    (∀ (name : String) (feed : List VersionRecord) (now : CalDate),
      selectedNodePython name feed now =
        (feed.filter (keepRecord name now)).getLast?) ∧
    (∀ (name : String) (feed : List VersionRecord) (now : CalDate)
        (item : VersionRecord),
      item ∈ feed.filter (keepRecord name now) ↔
        item ∈ feed ∧ dateGte item.eol now = true ∧
          (name = "Node" → item.lts ≠ LtsField.ofBool false)) ∧
    (∀ (name : String) (feed : List VersionRecord) (now : CalDate)
        (V : VersionRecord),
      feed.Pairwise (fun x y => dateKey y.eol ≤ dateKey x.eol) →
      selectedNodePython name feed now = some V →
      ∀ w ∈ feed.filter (keepRecord name now),
        dateKey V.eol ≤ dateKey w.eol) := by
  refine ⟨?_, ?_, ?_⟩
  · intro name feed now
    unfold selectedNodePython filterApiData
    rw [← List.head?_eq_getElem?, List.head?_reverse]
  · intro name feed now item
    by_cases hn : name = "Node"
    · subst hn
      simp [List.mem_filter, keepRecord]
    · simp [List.mem_filter, keepRecord, hn]
  · intro name feed now V hp hsel w hw
    unfold selectedNodePython filterApiData at hsel
    rw [← List.head?_eq_getElem?, List.head?_reverse] at hsel
    have hpf : (feed.filter (keepRecord name now)).Pairwise
        (fun x y => dateKey y.eol ≤ dateKey x.eol) :=
      List.Pairwise.sublist (List.filter_sublist _) hp
    rcases rel_getLast_of_pairwise hpf hsel w hw with rfl | hrel
    · exact Nat.le_refl _
    · exact hrel

/-- Claim C4 witness: on a concrete feed sorted with later EOL first,
the selected record's EOL is at or before every kept record's EOL. -/
theorem selection_last_kept_witness :
    ([⟨⟨2027, 4, 1⟩, ⟨3, 12, 6⟩, ⟨2025, 5, 1⟩, .ofBool false⟩,
      ⟨⟨2026, 4, 1⟩, ⟨3, 11, 9⟩, ⟨2025, 0, 1⟩, .ofBool false⟩] :
        List VersionRecord).Pairwise
      (fun x y => dateKey y.eol ≤ dateKey x.eol) ∧
    dateKey (⟨2026, 4, 1⟩ : CalDate) ≤ dateKey (⟨2027, 4, 1⟩ : CalDate) :=
  ⟨by decide,
   selection_last_kept_amended.2.2 "Python"
     [⟨⟨2027, 4, 1⟩, ⟨3, 12, 6⟩, ⟨2025, 5, 1⟩, .ofBool false⟩,
      ⟨⟨2026, 4, 1⟩, ⟨3, 11, 9⟩, ⟨2025, 0, 1⟩, .ofBool false⟩]
     ⟨2026, 0, 10⟩
     ⟨⟨2026, 4, 1⟩, ⟨3, 11, 9⟩, ⟨2025, 0, 1⟩, .ofBool false⟩
     (by decide) rfl
     ⟨⟨2027, 4, 1⟩, ⟨3, 12, 6⟩, ⟨2025, 5, 1⟩, .ofBool false⟩
     (by decide)⟩

end EolCheck

namespace EolCheck

/-! ### Claim C3 -/

/-- Claim C3 counterexample: 2026-07-16 is exactly 6 months and 1 day
after 2026-01-15, yet `isDateMoreThanSixMonthsApart` returns `false`
there (the dayjs whole-month difference is 6, and `6 > 6` fails),
contradicting the claim that 6 months + 1 day yields `true`. -/
theorem sixMonthsApart_plus_one_day_cex :
    nextDay (addMonths ⟨2026, 0, 15⟩ 6) = ⟨2026, 6, 16⟩ ∧
    isDateMoreThanSixMonthsApart ⟨2026, 0, 15⟩ ⟨2026, 6, 16⟩ = false :=
  ⟨rfl, by decide⟩

/-- Claim C3 (amended): for every valid clock date, the horizon
predicate returns `false` at exactly 6 months, still `false` at
6 months + 1 day (the truncated month difference is still 6), `false`
for every date in the past, and first returns `true` at 7 whole
months. -/
theorem sixMonthsApart_boundary_amended (now : CalDate) (hv : ValidDate now) :
    isDateMoreThanSixMonthsApart now (addMonths now 6) = false ∧
    isDateMoreThanSixMonthsApart now (nextDay (addMonths now 6)) = false ∧
    (∀ d, dateKey d < dateKey now →
      isDateMoreThanSixMonthsApart now d = false) ∧
    isDateMoreThanSixMonthsApart now (addMonths now 7) = true := by
  have hd1 : 1 ≤ now.day := hv.2.1
  have h31 : now.day ≤ 31 := Nat.le_trans hv.2.2 (daysInMonth_le _ _)
  refine ⟨?_, ?_, ?_, ?_⟩
  · have h6 := monthsDiffTrunc_eq now (addMonths now 6) hv 6 (Nat.le_refl _)
      (dateKey_addMonths_lt now hd1 h31 (by omega))
    simp [isDateMoreThanSixMonthsApart, h6]
  · obtain ⟨hA, hB⟩ := nextDay_addMonths_bounds now hd1 h31
    have h6 := monthsDiffTrunc_eq now (nextDay (addMonths now 6)) hv 6 hA hB
    simp [isDateMoreThanSixMonthsApart, h6]
  · intro d hd
    have hle := monthsDiffTrunc_nonpos now d hd
    simp only [isDateMoreThanSixMonthsApart, decide_eq_false_iff_not]
    omega
  · have h7 := monthsDiffTrunc_eq now (addMonths now 7) hv 7 (Nat.le_refl _)
      (dateKey_addMonths_lt now hd1 h31 (by omega))
    simp [isDateMoreThanSixMonthsApart, h7]

/-- Claim C3 witness: the amended boundary behaviour at the concrete
clock date 2026-10-11, with 2020-01-01 as the past date. -/
theorem sixMonthsApart_boundary_witness :
    isDateMoreThanSixMonthsApart ⟨2026, 9, 11⟩
        (addMonths ⟨2026, 9, 11⟩ 6) = false ∧
    isDateMoreThanSixMonthsApart ⟨2026, 9, 11⟩
        (nextDay (addMonths ⟨2026, 9, 11⟩ 6)) = false ∧
    isDateMoreThanSixMonthsApart ⟨2026, 9, 11⟩ ⟨2020, 0, 1⟩ = false ∧
    isDateMoreThanSixMonthsApart ⟨2026, 9, 11⟩
        (addMonths ⟨2026, 9, 11⟩ 7) = true :=
  ⟨(sixMonthsApart_boundary_amended ⟨2026, 9, 11⟩ (by decide)).1,
   (sixMonthsApart_boundary_amended ⟨2026, 9, 11⟩ (by decide)).2.1,
   (sixMonthsApart_boundary_amended ⟨2026, 9, 11⟩ (by decide)).2.2.1
     ⟨2020, 0, 1⟩ (by decide),
   (sixMonthsApart_boundary_amended ⟨2026, 9, 11⟩ (by decide)).2.2.2⟩

end EolCheck

namespace EolCheck

/-! ### Claim C8 -/

theorem strContains_cons_left (x y p : String)
    (h : strContains y p = true) : strContains (x ++ y) p = true := by
  unfold strContains at *
  rw [String.data_append]
  exact charsContain_append_left _ _ _ h

theorem strContains_self_append (p r : String) :
    strContains (p ++ r) p = true := by
  unfold strContains
  rw [String.data_append]
  exact charsContain_self_append _ _

theorem strContains_self (p : String) : strContains p p = true := by
  unfold strContains
  have h := charsContain_self_append p.data []
  simpa using h

/-- Claim C8 counterexample: a concrete Go evaluation composes its
`DeprecationNotice` with title "... is losing support soon!", which does
not embed the selected record's EOL date (2027-03-23), contradicting the
claim that every tool's deprecation title embeds the EOL date. -/
theorem go_deprecation_title_no_eol_cex :
    goCheckVersions
        [⟨⟨2027, 8, 12⟩, ⟨1, 21, 0⟩, ⟨2027, 1, 6⟩, .ofBool false⟩,
         ⟨⟨2027, 2, 23⟩, ⟨1, 20, 0⟩, ⟨2026, 8, 10⟩, .ofBool false⟩]
        (some [⟨⟨1, 20, 0⟩⟩]) [] =
      .ok (.notifyCreated (goDeprecationIntent ⟨1, 20, 0⟩),
        [goDeprecationIntent ⟨1, 20, 0⟩]) ∧
    strContains (goDeprecationIntent ⟨1, 20, 0⟩).title
      (showDate ⟨2027, 2, 23⟩) = false :=
  ⟨rfl, by decide⟩

/-- Claim C8 (amended): every deprecation-labelled intent a Node/Python
evaluation passes to the notification step embeds the tool name, the
selected record's version, and its EOL date in the title; for Go the
label is also `deprecation-notice` and the title embeds the tool name
and version, but no EOL date (the title ends "is losing support
soon!"). -/
theorem deprecation_intent_contents_amended :
    (∀ (name : String) (feed : List VersionRecord)
        (raw : Option (List ManifestEntry)) (issues : List String)
        (now : CalDate) (intent : NotificationIntent) (o : Outcome)
        (created : List NotificationIntent),
      checkVersions name feed raw issues now = .ok (o, created) →
      (o = .notifyCreated intent ∨ o = .notifySkippedDuplicate intent) →
      intent.labels = ["deprecation-notice"] →
      strContains intent.title name = true ∧
      ∃ V, (filterApiData name feed now)[0]? = some V ∧
        intent = deprecationIntent name V.latest V.eol ∧
        strContains intent.title (showVer V.latest) = true ∧
        strContains intent.title (showDate V.eol) = true) ∧
    (∀ (feed : List VersionRecord) (raw : Option (List ManifestEntry))
        (issues : List String) (intent : NotificationIntent) (o : Outcome)
        (created : List NotificationIntent),
      goCheckVersions feed raw issues = .ok (o, created) →
      (o = .notifyCreated intent ∨ o = .notifySkippedDuplicate intent) →
      intent.labels = ["deprecation-notice"] →
      strContains intent.title "Go" = true ∧
      ∃ V, feed[1]? = some V ∧
        intent = goDeprecationIntent V.latest ∧
        strContains intent.title (showVer V.latest) = true) := by
  constructor
  · intro name feed raw issues now intent o created h ho hlab
    obtain ⟨V, m, hF, hM, hcase⟩ :=
      checkVersions_ok_inv name feed raw issues now _ _ h
    rcases hcase with ⟨_, hstep⟩ | ⟨_, _, hno, _⟩ | ⟨_, _, hstep⟩
    · -- mismatch branch: the label contradicts the hypothesis
      exfalso
      have hint : intent = mismatchIntent name V.latest m.version := by
        rcases notifyStep_cases issues (mismatchIntent name V.latest m.version)
          with hns | hns <;> rw [hns] at hstep <;> rcases ho with rfl | rfl <;>
          simp only [Prod.mk.injEq, Outcome.notifyCreated.injEq,
            Outcome.notifySkippedDuplicate.injEq] at hstep <;>
          first
          | exact hstep.1
          | exact absurd hstep (by simp)
      rw [hint] at hlab
      simp [mismatchIntent] at hlab
    · -- no-action branch: no intent reaches the notification step
      rcases ho with rfl | rfl <;> simp at hno
    · -- deprecation branch
      have hint : intent = deprecationIntent name V.latest V.eol := by
        rcases notifyStep_cases issues (deprecationIntent name V.latest V.eol)
          with hns | hns <;> rw [hns] at hstep <;> rcases ho with rfl | rfl <;>
          simp only [Prod.mk.injEq, Outcome.notifyCreated.injEq,
            Outcome.notifySkippedDuplicate.injEq] at hstep <;>
          first
          | exact hstep.1
          | exact absurd hstep (by simp)
      subst hint
      refine ⟨?_, V, hF, rfl, ?_, ?_⟩
      · simp only [deprecationIntent, String.append_assoc]
        exact strContains_cons_left _ _ _ (strContains_self_append _ _)
      · simp only [deprecationIntent, String.append_assoc]
        apply strContains_cons_left
        apply strContains_cons_left
        apply strContains_cons_left
        exact strContains_self_append _ _
      · simp only [deprecationIntent, String.append_assoc]
        apply strContains_cons_left
        apply strContains_cons_left
        apply strContains_cons_left
        apply strContains_cons_left
        apply strContains_cons_left
        exact strContains_self _
  · intro feed raw issues intent o created h ho hlab
    obtain ⟨V, m, hF, hM, hcase⟩ := goCheckVersions_ok_inv feed raw issues _ _ h
    rcases hcase with ⟨_, hstep⟩ | ⟨_, hstep⟩
    · exfalso
      have hint : intent = goMismatchIntent V.latest m.version := by
        rcases notifyStep_cases issues (goMismatchIntent V.latest m.version)
          with hns | hns <;> rw [hns] at hstep <;> rcases ho with rfl | rfl <;>
          simp only [Prod.mk.injEq, Outcome.notifyCreated.injEq,
            Outcome.notifySkippedDuplicate.injEq] at hstep <;>
          first
          | exact hstep.1
          | exact absurd hstep (by simp)
      rw [hint] at hlab
      simp [goMismatchIntent] at hlab
    · have hint : intent = goDeprecationIntent V.latest := by
        rcases notifyStep_cases issues (goDeprecationIntent V.latest)
          with hns | hns <;> rw [hns] at hstep <;> rcases ho with rfl | rfl <;>
          simp only [Prod.mk.injEq, Outcome.notifyCreated.injEq,
            Outcome.notifySkippedDuplicate.injEq] at hstep <;>
          first
          | exact hstep.1
          | exact absurd hstep (by simp)
      subst hint
      refine ⟨?_, V, hF, rfl, ?_⟩
      · have hsplit : ("[AUTOMATIC MESSAGE] Go version `" : String) =
            "[AUTOMATIC MESSAGE] " ++ ("Go" ++ " version `") := rfl
        simp only [goDeprecationIntent, hsplit, String.append_assoc]
        apply strContains_cons_left
        exact strContains_self_append _ _
      · simp only [goDeprecationIntent, String.append_assoc]
        apply strContains_cons_left
        exact strContains_self_append _ _

/-- Claim C8 witness: the Node/Python half of the amended theorem at a
concrete Python run whose deprecation title embeds "Python", "3.12.6"
and "2026-11-15". -/
theorem deprecation_intent_contents_witness :
    strContains (deprecationIntent "Python" ⟨3, 12, 6⟩ ⟨2026, 10, 15⟩).title
        "Python" = true ∧
    strContains (deprecationIntent "Python" ⟨3, 12, 6⟩ ⟨2026, 10, 15⟩).title
        (showVer ⟨3, 12, 6⟩) = true ∧
    strContains (deprecationIntent "Python" ⟨3, 12, 6⟩ ⟨2026, 10, 15⟩).title
        (showDate ⟨2026, 10, 15⟩) = true := by
  obtain ⟨h1, V, hV, hint, h2, h3⟩ :=
    deprecation_intent_contents_amended.1 "Python"
      [⟨⟨2026, 10, 15⟩, ⟨3, 12, 6⟩, ⟨2025, 9, 1⟩, .ofBool false⟩]
      (some [⟨⟨3, 12, 6⟩⟩]) [] ⟨2026, 9, 11⟩
      (deprecationIntent "Python" ⟨3, 12, 6⟩ ⟨2026, 10, 15⟩)
      (.notifyCreated (deprecationIntent "Python" ⟨3, 12, 6⟩ ⟨2026, 10, 15⟩))
      [deprecationIntent "Python" ⟨3, 12, 6⟩ ⟨2026, 10, 15⟩]
      rfl (Or.inl rfl) rfl
  have hVeq : (some (⟨⟨2026, 10, 15⟩, ⟨3, 12, 6⟩, ⟨2025, 9, 1⟩,
      .ofBool false⟩ : VersionRecord) : Option VersionRecord) = some V := by
    rw [← hV]
    rfl
  cases hVeq
  exact ⟨h1, h2, h3⟩

end EolCheck
